import Mathlib

/-!
Verification of the parrot speech-synthesis client.

The Python sources (communicate.py, utils.py, subtitle.py, exceptions.py)
are embedded shallowly: bytes become `List Nat`, Python exceptions become
an explicit `PyError` sum returned through `Except`, and the float
arithmetic of `format_timestamp` is carried out exactly over `ℚ`
(the source's doubles are exact on every input the claims touch; the only
divergence is the direction of exact half-millisecond rounding ties,
which no claim depends on).
-/

/-- Errors raised by the Python code. `valueError` models Python's builtin
`ValueError` (raised by `Communicate.__init__` for bad parameters and by
tuple unpacking in `get_headers_and_data`); the rest are the classes of
exceptions.py. -/
inductive PyError where
  | valueError (msg : String)
  | unexpectedResponse (msg : String)
  | missingAudioData
  | noAudioReceived (msg : String)
  | unknownResponse (data : List Nat)
  | unknownMetadataResponse (metaType : String)
  | webSocketError (msg : String)
  deriving Repr, DecidableEq

/-- Auxiliary scan for `pyFind`: index of the first occurrence of `pat`
from offset `i`, or -1. -/
def pyFindAux (pat : List Nat) : List Nat → Int → Int
  | [], i => if pat = [] then i else -1
  | d :: rest, i => if pat.isPrefixOf (d :: rest) then i else pyFindAux pat rest (i + 1)

/-- Python `bytes.find(pat)`: index of the first occurrence of the
subsequence `pat` in `data`, or -1 when there is none. -/
def pyFind (data pat : List Nat) : Int :=
  pyFindAux pat data 0

/-- Python slice `data[:i]` (a negative stop counts from the end). -/
def pySliceTo (data : List Nat) (i : Int) : List Nat :=
  if i < 0 then data.take (data.length - (-i).toNat) else data.take i.toNat

/-- Python slice `data[i:]` (a negative start counts from the end). -/
def pySliceFrom (data : List Nat) (i : Int) : List Nat :=
  if i < 0 then data.drop (data.length - (-i).toNat) else data.drop i.toNat

/-- Python `block.split(b"\r\n")`: split on every CRLF occurrence. `acc`
is the current chunk, reversed. -/
def splitCRLF (l : List Nat) (acc : List Nat) : List (List Nat) :=
  match l with
  | [] => [acc.reverse]
  | [b] => [(b :: acc).reverse]
  | b :: c :: rest =>
    if b = 13 ∧ c = 10 then acc.reverse :: splitCRLF rest []
    else splitCRLF (c :: rest) (b :: acc)

/-- Python `line.split(b":", 1)`: split at the first colon (byte 58) only. -/
def splitColon1 (l : List Nat) (acc : List Nat) : List (List Nat) :=
  match l with
  | [] => [acc.reverse]
  | b :: rest =>
    if b = 58 then [acc.reverse, rest] else splitColon1 rest (b :: acc)

/-- Python `dict` assignment `d[k] = v`: overwrite in place when the key is
present, append otherwise. -/
def pyDictSet (d : List (List Nat × List Nat)) (k v : List Nat) : List (List Nat × List Nat) :=
  if d.any (fun p => decide (p.1 = k)) then
    d.map (fun p => if p.1 = k then (k, v) else p)
  else d ++ [(k, v)]

/-- Python `d.get(k)` on the dict model. -/
def pyDictGet (d : List (List Nat × List Nat)) (k : List Nat) : Option (List Nat) :=
  (d.find? (fun p => decide (p.1 = k))).map (·.2)

/-- The header-line loop of `get_headers_and_data` (communicate.py lines
52-55): each line is split at its first colon into key and value; a line
with no colon makes the tuple unpacking raise `ValueError`. -/
def parseHeaderLines : List (List Nat) → List (List Nat × List Nat) →
    Except PyError (List (List Nat × List Nat))
  | [], acc => .ok acc
  | line :: rest, acc =>
    match splitColon1 line [] with
    | [k, v] => parseHeaderLines rest (pyDictSet acc k v)
    | _ => .error (.valueError "not enough values to unpack (expected 2, got 1)")

/-- communicate.py lines 37-57, `get_headers_and_data`: the header block is
`data[: data.find(b"\r\n\r\n")]` split on CRLF, each line split at its
first colon; the payload is `data[data.find(b"\r\n\r\n") + 4 :]`. Note
that when no delimiter is present `find` returns -1, so the header block
is all bytes but the last and the payload is `data[3:]`. -/
def get_headers_and_data (data : List Nat) :
    Except PyError (List (List Nat × List Nat) × List Nat) := do
  let delim := pyFind data [13, 10, 13, 10]
  let headers ← parseHeaderLines (splitCRLF (pySliceTo data delim) []) []
  pure (headers, pySliceFrom data (delim + 4))

/-- Python `int.from_bytes(bs, "big")`. -/
def intFromBytesBE (bs : List Nat) : Nat :=
  bs.foldl (fun acc b => 256 * acc + b) 0

/-- Binary-frame parsing, inlined in `Communicate.stream` (communicate.py
lines 249-263): a frame shorter than 2 bytes raises `UnexpectedResponse`;
the first two bytes are a big-endian header length; a frame shorter than
that length plus 2 raises `MissingAudioData`; otherwise the audio payload
is everything past the header. -/
def parseBinaryFrame (raw : List Nat) : Except PyError (List Nat) :=
  if raw.length < 2 then
    .error (.unexpectedResponse
      "We received a binary message, but it is missing the header length.")
  else
    let headerLength := intFromBytesBE (raw.take 2)
    if raw.length < headerLength + 2 then .error .missingAudioData
    else .ok (raw.drop (headerLength + 2))

/-- communicate.py lines 60-76, `mkssml`: the SSML envelope, with the text
spliced in verbatim. -/
def mkssml (text voice rate volume pitch : String) : String :=
  "<speak version='1.0' xmlns='http://www.w3.org/2001/10/synthesis' xml:lang='en-US'>"
    ++ s!"<voice name='{voice}'>"
    ++ s!"<prosody pitch='{pitch}' rate='{rate}' volume='{volume}'>{text}</prosody>"
    ++ "</voice></speak>"

/-- Python float `a % b` (sign of the divisor; exact over the rationals). -/
def fmodQ (a b : ℚ) : ℚ := a - b * ⌊a / b⌋

/-- Round to the nearest integer, exact ties to the even one. This is the
idealization of the correctly rounded decimal conversion performed by
Python's fixed-point float formatting. -/
def rndHE (q : ℚ) : ℤ :=
  let f := ⌊q⌋
  let r := q - f
  if r < 1 / 2 then f else if 1 / 2 < r then f + 1 else if f % 2 = 0 then f else f + 1

/-- Zero-pad a rendered number on the left to width `w`, as Python's
`0`-flagged format specifications do for the nonnegative values that
occur here. -/
def padZ (w : Nat) (s : String) : String :=
  if s.length < w then String.mk (List.replicate (w - s.length) '0') ++ s else s

/-- Python `f"{q:06.3f}"` for the nonnegative values that occur here:
three decimal places, zero-padded to overall width 6. -/
def fmtFixed3 (q : ℚ) : String :=
  let m := (rndHE (q * 1000)).toNat
  padZ 6 (toString (m / 1000) ++ "." ++ padZ 3 (toString (m % 1000)))

/-- utils.py lines 77-89, `format_timestamp`: ticks are 100-nanosecond
units; the Python float arithmetic is carried out exactly over `ℚ`. -/
def format_timestamp (unit : ℚ) : String :=
  let hour := ⌊unit / 10 ^ 7 / 3600⌋
  let minute := ⌊fmodQ (unit / 10 ^ 7 / 60) 60⌋
  let seconds := fmodQ (unit / 10 ^ 7) 60
  padZ 2 (toString hour) ++ ":" ++ padZ 2 (toString minute) ++ ":" ++ fmtFixed3 seconds

/-- utils.py lines 92-100, `format_cue`: one subtitle cue block. -/
def format_cue (index : Nat) (start stop : ℚ) (text : String) : String :=
  toString index ++ "\n" ++ format_timestamp start ++ " --> " ++ format_timestamp stop
    ++ "\n" ++ text.trim ++ "\n\n"

/-- Python's `$` anchor also matches just before one trailing newline; for
patterns none of whose elements can match a newline (all those used here),
an anchored match is a full match of the input with at most one trailing
newline removed. -/
def stripOneTrailingNL (l : List Char) : List Char :=
  if l.getLast? = some '\n' then l.dropLast else l

/-- The character class `[a-z]`. -/
def isAsciiLowerAZ (c : Char) : Bool := 'a' ≤ c && c ≤ 'z'

/-- The character class `[A-Z]`. -/
def isAsciiUpperAZ (c : Char) : Bool := 'A' ≤ c && c ≤ 'Z'

/-- The class `\d`, restricted to ASCII digits (Python's `\d` also accepts
other Unicode decimal digits; no claim turns on those). -/
def isPyDigit (c : Char) : Bool := c.isDigit

/-- Python `re.match(r"^[+-]\d+SUFFIX$", s)` for a literal, digit-free
`SUFFIX`: a sign, a nonempty maximal digit run, then exactly the suffix. -/
def matchSignedNum (suffix : List Char) (s : String) : Bool :=
  match stripOneTrailingNL s.data with
  | c :: rest =>
    let ds := rest.takeWhile isPyDigit
    (c == '+' || c == '-') && !ds.isEmpty && rest.drop ds.length == suffix
  | [] => false

/-- The rate and volume grammar `^[+-]\d+%$` (communicate.py lines 146,
150; utils.py `is_rate_format`/`is_volume_format`). -/
def matchSignedPercent (s : String) : Bool := matchSignedNum ['%'] s

/-- The pitch grammar `^[+-]\d+Hz$` (communicate.py line 154; utils.py
`is_pitch_format`). -/
def matchSignedHz (s : String) : Bool := matchSignedNum ['H', 'z'] s

/-- utils.py lines 61-62, `is_voice_format`: Python
`re.match(r"^([a-z]{2,})-([A-Z]{2,})-(.+Neural)$", voice)`, returning the
three groups. The quantifiers are effectively possessive (no class
matches `-`, and `.` cannot match the newline), so greedy matching is
deterministic: maximal letter runs for the first two groups, and the
whole remainder — which must end in `Neural`, be at least 7 characters
long, and carry no newline before that suffix — for the third. -/
def is_voice_format (voice : String) : Option (List Char × List Char × List Char) :=
  let core := stripOneTrailingNL voice.data
  let lang := core.takeWhile isAsciiLowerAZ
  if lang.length < 2 then none else
  match core.drop lang.length with
  | '-' :: rest1 =>
    let region := rest1.takeWhile isAsciiUpperAZ
    if region.length < 2 then none else
    (match rest1.drop region.length with
     | '-' :: name =>
       if 7 ≤ name.length ∧ name.drop (name.length - 6) = "Neural".data
           ∧ '\n' ∉ name.take (name.length - 6) then
         some (lang, region, name)
       else none
     | _ => none)
  | _ => none

/-- The canonical-voice literal of communicate.py line 139. -/
def canonicalVoiceLit : List Char := "Microsoft Server Speech Text to Speech Voice (".data

/-- communicate.py lines 137-143: Python
`re.match(r"^Microsoft Server Speech Text to Speech Voice \(.+,.+\)$", s)`:
the literal prefix, then a newline-free middle that splits at some comma
into two nonempty parts, then a closing parenthesis at the end. -/
def matchCanonicalVoice (s : String) : Bool :=
  let core := stripOneTrailingNL s.data
  let mid := (core.drop canonicalVoiceLit.length).dropLast
  decide (core.take canonicalVoiceLit.length = canonicalVoiceLit)
    && decide (core.getLast? = some ')')
    && decide (canonicalVoiceLit.length + 1 < core.length)
    && decide ('\n' ∉ mid)
    && decide (',' ∈ mid.dropLast.drop 1)

/-- The validated parameters held by a constructed `Communicate`
(communicate.py lines 119-160). -/
structure Communicate where
  text : String
  voice : String
  rate : String
  volume : String
  pitch : String
  sentence_boundary : Bool
  word_boundary : Bool
  deriving Repr, DecidableEq

/-- communicate.py lines 101-160, `Communicate.__init__`: normalize a
short-form voice into the canonical form (splitting an extra region
qualifier off a hyphenated name), then validate voice, rate, volume and
pitch in that order, raising `ValueError` at the first failure. -/
def mkCommunicate (text voice rate volume pitch : String)
    (sentence_boundary word_boundary : Bool) : Except PyError Communicate :=
  let voice2 := match is_voice_format voice with
    | some (lang, region, name) =>
      let region2 := if ('-' : Char) ∈ name then region ++ '-' :: name.takeWhile (· != '-')
        else region
      let name2 := if ('-' : Char) ∈ name then (name.dropWhile (· != '-')).drop 1 else name
      String.mk (canonicalVoiceLit ++ lang ++ '-' :: region2 ++ ", ".data ++ name2 ++ [')'])
    | none => voice
  if !matchCanonicalVoice voice2 then .error (.valueError s!"Invalid voice '{voice}'.")
  else if !matchSignedPercent rate then .error (.valueError s!"Invalid rate '{rate}'.")
  else if !matchSignedPercent volume then .error (.valueError s!"Invalid volume '{volume}'.")
  else if !matchSignedHz pitch then .error (.valueError s!"Invalid pitch '{pitch}'.")
  else .ok { text := text, voice := voice2, rate := rate, volume := volume, pitch := pitch,
             sentence_boundary := sentence_boundary, word_boundary := word_boundary }

/-- One timed segment accumulated by the Subtitle class: a `(start, end)`
timestamp pair (100-nanosecond ticks) and a text. -/
structure Seg where
  tstart : ℚ
  tstop : ℚ
  text : String
  deriving Repr, DecidableEq

/-- subtitle.py lines 5-18: the two append-only segment sequences. -/
structure Subtitle where
  sentences : List Seg
  words : List Seg
  deriving Repr, DecidableEq

/-- The loop of `Subtitle.generate_word_subtitle` (subtitle.py lines
26-37). `index`, `start` and `words` are the Python locals; the test
`len(self.words) == i + 1` for the last word becomes `rest = []`. -/
def wordCueLoop (wordsInCue : Nat) : List Seg → Nat → ℚ → List String → List String
  | [], _, _, _ => []
  | seg :: rest, index, start, words =>
    let value := seg.text.trim
    let words2 := words ++ [value]
    let start2 := if words2.length = 1 then seg.tstart else start
    if words2.length = wordsInCue ∨ value ∈ [".", ",", "?"] ∨ rest = [] then
      format_cue (index + 1) start2 seg.tstop (String.intercalate " " words2) ::
        wordCueLoop wordsInCue rest (index + 1) start2 []
    else
      wordCueLoop wordsInCue rest index start2 words2

/-- subtitle.py lines 20-38, `Subtitle.generate_word_subtitle`. -/
def generate_word_subtitle (s : Subtitle) (wordsInCue : Nat) : String :=
  String.join (wordCueLoop wordsInCue s.words 0 0 [])

/-- subtitle.py lines 40-47, `Subtitle.generate_sentence_subtitle`: the
Python loop indexes `self.sentences[i]` for `i in range(len(...))`. -/
def generate_sentence_subtitle (s : Subtitle) : String :=
  String.join ((List.range s.sentences.length).map (fun i =>
    let segment := s.sentences.getD i ⟨0, 0, ""⟩
    format_cue i segment.tstart segment.tstop segment.text))

/-- The UTF-8 bytes of an ASCII string (every wire constant here is ASCII). -/
def strBytes (s : String) : List Nat := s.data.map (fun c => c.toNat)

/-- One inbound websocket message, by transport frame type (text, binary,
or transport-level error). Other frame types (ping, close) fall through
the dispatch in communicate.py and are ignored by it. -/
inductive Frame where
  | text (data : List Nat)
  | binary (data : List Nat)
  | wsError (msg : String)
  deriving Repr, DecidableEq

/-- One entry of the `Metadata` list of an `audio.metadata` payload, as
read by communicate.py lines 232-239: `item["Type"]`,
`item["Data"]["Offset"]`, `item["Data"]["Duration"]`,
`item["Data"]["text"]["Text"]`. -/
structure MetaItem where
  itemType : String
  offset : ℚ
  duration : ℚ
  text : String
  deriving Repr, DecidableEq

/-- One dictionary yielded by `Communicate.stream`: either
`{"type": "audio", "data": ...}` or
`{"type": <boundary kind>, "timestamp": (offset, offset + duration),
"text": ...}`. -/
inductive StreamEvent where
  | audio (data : List Nat)
  | boundary (btype : String) (tstart tstop : ℚ) (text : String)
  deriving Repr, DecidableEq

/-- Whether an event is an audio chunk. -/
def StreamEvent.isAudio : StreamEvent → Bool
  | .audio _ => true
  | .boundary _ _ _ _ => false

/-- The metadata item loop of communicate.py lines 232-246: `SessionEnd`
is skipped, the two boundary kinds are yielded, anything else raises
`UnknownMetadataResponse` after the items before it were yielded. -/
def processMetadata : List MetaItem → List StreamEvent × Option PyError
  | [] => ([], none)
  | item :: rest =>
    if item.itemType = "SessionEnd" then processMetadata rest
    else if item.itemType = "WordBoundary" ∨ item.itemType = "SentenceBoundary" then
      let out := processMetadata rest
      (.boundary item.itemType item.offset (item.offset + item.duration) item.text :: out.1,
        out.2)
    else ([], some (.unknownMetadataResponse item.itemType))

/-- The exception of communicate.py line 271. -/
def noAudioError : PyError :=
  .noAudioReceived "Please verify that your parameters are correct."

/-- The terminal check of communicate.py lines 270-271. -/
def endOfStreamCheck (audioReceived : Bool) : Option PyError :=
  if audioReceived then none else some noAudioError

/-- The receive loop of `Communicate.stream` (communicate.py lines
222-271), as a function of the inbound frame sequence: the events the
generator yields, and the exception it ends with, if any. `jloads`
stands for Python's `json.loads` plus the `["Metadata"]` item extraction
on an `audio.metadata` payload — stdlib code outside this repository,
so it is a parameter; the dispatch, the flag `audio_was_received` and
every raise are translated from the source. -/
def streamLoop (jloads : List Nat → Except PyError (List MetaItem)) :
    List Frame → Bool → List StreamEvent × Option PyError
  | [], audioReceived => ([], endOfStreamCheck audioReceived)
  | frame :: rest, audioReceived =>
    match frame with
    | .text d =>
      match get_headers_and_data d with
      | .error e => ([], some e)
      | .ok (headers, payload) =>
        let path := pyDictGet headers (strBytes "Path")
        if path = some (strBytes "turn.end") then
          ([], endOfStreamCheck audioReceived)
        else if path = some (strBytes "response") ∨ path = some (strBytes "turn.start") then
          streamLoop jloads rest audioReceived
        else if path = some (strBytes "audio.metadata") then
          match jloads payload with
          | .error e => ([], some e)
          | .ok items =>
            let out := processMetadata items
            match out.2 with
            | some e => (out.1, some e)
            | none =>
              let tail := streamLoop jloads rest audioReceived
              (out.1 ++ tail.1, tail.2)
        else ([], some (.unknownResponse d))
    | .binary d =>
      match parseBinaryFrame d with
      | .error e => ([], some e)
      | .ok audioData =>
        let tail := streamLoop jloads rest true
        (.audio audioData :: tail.1, tail.2)
    | .wsError msg =>
      ([], some (.webSocketError (if msg = "" then "Unknown error" else msg)))

/-- `Communicate.stream`'s inbound side, started with
`audio_was_received = False` (communicate.py line 179). -/
def streamReceive (jloads : List Nat → Except PyError (List MetaItem))
    (frames : List Frame) : List StreamEvent × Option PyError :=
  streamLoop jloads frames false

/-- C10: on a freshly constructed Subtitle (subtitle.py lines 10-12: both
segment lists empty), `generate_word_subtitle` returns the empty string
for every `words_in_cue`, and `generate_sentence_subtitle` returns the
empty string. -/
theorem c10_empty_subtitle_renders_empty :
    (∀ wordsInCue : Nat, generate_word_subtitle ⟨[], []⟩ wordsInCue = "") ∧
    generate_sentence_subtitle ⟨[], []⟩ = "" :=
  ⟨fun _ => rfl, rfl⟩

/-- C2: binary-frame parsing: a frame shorter than 2 bytes fails with
`UnexpectedResponse`; with `L` the big-endian value of the first two
bytes, a frame shorter than `L + 2` fails with `MissingAudioData`;
otherwise the audio payload is exactly the bytes from position `L + 2`
on. In particular `[0x00, 0x02, 0xAA, 0xBB, 0x01, 0x02, 0x03]` yields
`[0x01, 0x02, 0x03]`, and a frame shorter than `L + 2` fails. -/
theorem c2_parse_binary_frame :
    (∀ raw : List Nat,
      parseBinaryFrame raw =
        if raw.length < 2 then
          Except.error (PyError.unexpectedResponse
            "We received a binary message, but it is missing the header length.")
        else if raw.length < 256 * raw.headD 0 + raw.tail.headD 0 + 2 then
          Except.error PyError.missingAudioData
        else Except.ok (raw.drop (256 * raw.headD 0 + raw.tail.headD 0 + 2))) ∧
    parseBinaryFrame [0x00, 0x02, 0xAA, 0xBB, 0x01, 0x02, 0x03] = Except.ok [0x01, 0x02, 0x03] ∧
    parseBinaryFrame [0x00, 0x02, 0xAA] = Except.error PyError.missingAudioData ∧
    parseBinaryFrame [0x05] = Except.error (PyError.unexpectedResponse
      "We received a binary message, but it is missing the header length.") := by
  refine ⟨?_, rfl, rfl, rfl⟩
  intro raw
  match raw with
  | [] => rfl
  | [a] => rfl
  | a :: b :: t => simp [parseBinaryFrame, intFromBytesBE]

/-- `toString` on a string is the identity. -/
theorem toString_string (s : String) : toString s = s := rfl

/-- C9: `mkssml` is a pure function embedding the input text verbatim,
with no escaping, into the fixed SSML envelope carrying the voice name
and the prosody attributes. -/
theorem c9_mkssml_envelope :
    ∀ text voice rate volume pitch : String,
      mkssml text voice rate volume pitch =
        "<speak version='1.0' xmlns='http://www.w3.org/2001/10/synthesis' xml:lang='en-US'>"
          ++ "<voice name='" ++ voice ++ "'>"
          ++ "<prosody pitch='" ++ pitch ++ "' rate='" ++ rate ++ "' volume='" ++ volume
          ++ "'>" ++ text ++ "</prosody></voice></speak>" := by
  intro text voice rate volume pitch
  apply String.ext
  simp [mkssml, toString_string, String.data_append]

/-- Specification-side sentence cues: one cue per segment, in order,
indices counting up from `i`, each cue carrying the segment's own time
range. -/
def specSentenceCues (i : Nat) : List Seg → List String
  | [] => []
  | seg :: rest => format_cue i seg.tstart seg.tstop seg.text :: specSentenceCues (i + 1) rest

/-- The indexed-loop rendering of sentence segments agrees with the
specification-side recursion, for any index offset. -/
theorem sentence_loop_eq_specSentenceCues (segs : List Seg) : ∀ off : Nat,
    (List.range segs.length).map (fun i =>
      let segment := segs.getD i ⟨0, 0, ""⟩
      format_cue (off + i) segment.tstart segment.tstop segment.text) =
    specSentenceCues off segs := by
  induction segs with
  | nil => intro off; rfl
  | cons x xs ih =>
    intro off
    rw [List.length_cons, List.range_succ_eq_map]
    simp only [List.map_cons, List.map_map, Nat.add_zero, List.getD_cons_zero]
    refine congrArg₂ List.cons rfl ?_
    have hfun : ((fun i =>
        let segment := (x :: xs).getD i ⟨0, 0, ""⟩
        format_cue (off + i) segment.tstart segment.tstop segment.text) ∘ Nat.succ) =
        (fun i =>
          let segment := xs.getD i ⟨0, 0, ""⟩
          format_cue (off + 1 + i) segment.tstart segment.tstop segment.text) := by
      funext i
      simp only [Function.comp_apply, List.getD_cons_succ]
      have : off + (i + 1) = off + 1 + i := by omega
      rw [Nat.succ_eq_add_one, this]
    rw [hfun, ih (off + 1)]

/-- C8: `generate_sentence_subtitle` emits exactly one cue per sentence
segment, in arrival order, indices 0, 1, 2, ..., each cue's time range
being the segment's own `(start, end)` pair — the rendering equals the
specification-side `specSentenceCues` starting at index 0. -/
theorem c8_sentence_cues : ∀ s : Subtitle,
    generate_sentence_subtitle s = String.join (specSentenceCues 0 s.sentences) := by
  intro s
  unfold generate_sentence_subtitle
  rw [← sentence_loop_eq_specSentenceCues s.sentences 0]
  simp only [Nat.zero_add]

/-- One encoded header line, `key ++ ":" ++ value`. -/
def headerLine (p : List Nat × List Nat) : List Nat := p.1 ++ 58 :: p.2

/-- The header block: lines joined with CRLF. -/
def headerBlock : List (List Nat × List Nat) → List Nat
  | [] => []
  | [p] => headerLine p
  | p :: rest => headerLine p ++ 13 :: 10 :: headerBlock rest

/-- A text frame as the spec builds one: the header block, the blank-line
delimiter, then the payload. -/
def encodeFrame (hdrs : List (List Nat × List Nat)) (payload : List Nat) : List Nat :=
  headerBlock hdrs ++ 13 :: 10 :: 13 :: 10 :: payload

/-- A well-formed header pair: a nonempty key free of CR, LF and colons,
and a value free of CR and LF. -/
def wfHeader (p : List Nat × List Nat) : Prop :=
  p.1 ≠ [] ∧ 13 ∉ p.1 ∧ 10 ∉ p.1 ∧ 58 ∉ p.1 ∧ 13 ∉ p.2 ∧ 10 ∉ p.2

instance (p : List Nat × List Nat) : Decidable (wfHeader p) := by
  unfold wfHeader
  infer_instance

/-- Scanning for the delimiter steps over a CR-free chunk. -/
theorem pyFindAux_skip_chunk (c : List Nat) (h : 13 ∉ c) : ∀ (t : List Nat) (i : Int),
    pyFindAux [13, 10, 13, 10] (c ++ t) i = pyFindAux [13, 10, 13, 10] t (i + c.length) := by
  induction c with
  | nil => intro t i; simp
  | cons b c' ih =>
    intro t i
    have hb : ¬(13 = b) := fun hb => h (by simp [← hb])
    have hpre : (([13, 10, 13, 10] : List Nat).isPrefixOf (b :: (c' ++ t))) = false := by
      simp only [List.isPrefixOf, Bool.and_eq_false_iff]
      left
      exact beq_eq_false_iff_ne.mpr hb
    rw [List.cons_append, pyFindAux, hpre]
    simp only [Bool.false_eq_true, if_false]
    rw [ih (fun hm => h (List.mem_cons_of_mem _ hm)) t (i + 1)]
    congr 1
    simp only [List.length_cons]
    omega

/-- The scan stops at the delimiter itself. -/
theorem pyFindAux_at_delim (t : List Nat) (i : Int) :
    pyFindAux [13, 10, 13, 10] (13 :: 10 :: 13 :: 10 :: t) i = i := by
  rw [pyFindAux]
  simp [List.isPrefixOf]

/-- A well-formed header line contains no CR. -/
theorem cr_not_mem_headerLine (p : List Nat × List Nat) (h : wfHeader p) :
    13 ∉ headerLine p := by
  obtain ⟨-, hk, -, -, hv, -⟩ := h
  simp only [headerLine, List.mem_append, List.mem_cons]
  rintro (hm | hm | hm)
  · exact hk hm
  · omega
  · exact hv hm

/-- A nonempty well-formed header block starts with a byte other than CR. -/
theorem headerBlock_head (hdrs : List (List Nat × List Nat)) (hwf : ∀ p ∈ hdrs, wfHeader p)
    (hne : hdrs ≠ []) : ∃ a t, headerBlock hdrs = a :: t ∧ a ≠ 13 := by
  match hdrs with
  | [] => exact absurd rfl hne
  | p :: rest =>
    obtain ⟨hk, hcr, -, -, -, -⟩ := hwf p (List.mem_cons_self p rest)
    obtain ⟨a, k', hkeq⟩ := List.exists_cons_of_ne_nil hk
    have ha : a ≠ 13 := fun h => hcr (by rw [hkeq, h]; exact List.mem_cons_self _ _)
    match rest with
    | [] => exact ⟨a, k' ++ 58 :: p.2, by simp [headerBlock, headerLine, hkeq], ha⟩
    | q :: rest' =>
      exact ⟨a, (k' ++ 58 :: p.2) ++ 13 :: 10 :: headerBlock (q :: rest'),
        by simp [headerBlock, headerLine, hkeq], ha⟩

/-- The first delimiter occurrence in an encoded frame sits exactly at the
end of the header block. -/
theorem pyFindAux_encodeFrame (hdrs : List (List Nat × List Nat)) (payload : List Nat)
    (hwf : ∀ p ∈ hdrs, wfHeader p) (hne : hdrs ≠ []) : ∀ i : Int,
    pyFindAux [13, 10, 13, 10] (encodeFrame hdrs payload) i =
      i + (headerBlock hdrs).length := by
  induction hdrs with
  | nil => exact absurd rfl hne
  | cons p rest ih =>
    intro i
    match rest with
    | [] =>
      show pyFindAux _ (headerLine p ++ 13 :: 10 :: 13 :: 10 :: payload) i = _
      rw [pyFindAux_skip_chunk _ (cr_not_mem_headerLine p (hwf p (by simp))),
        pyFindAux_at_delim]
      rfl
    | q :: rest' =>
      have hwf' : ∀ r ∈ q :: rest', wfHeader r := fun r hr => hwf r (List.mem_cons_of_mem _ hr)
      obtain ⟨a, t, hbeq, ha⟩ := headerBlock_head (q :: rest') hwf' (by simp)
      have hline : 13 ∉ headerLine p := cr_not_mem_headerLine p (hwf p (by simp))
      show pyFindAux _ ((headerLine p ++ 13 :: 10 :: headerBlock (q :: rest'))
          ++ 13 :: 10 :: 13 :: 10 :: payload) i = _
      rw [List.append_assoc, List.cons_append, List.cons_append,
        pyFindAux_skip_chunk _ hline]
      have h1 : (([13, 10, 13, 10] : List Nat).isPrefixOf
          (13 :: 10 :: (headerBlock (q :: rest') ++ 13 :: 10 :: 13 :: 10 :: payload)))
          = false := by
        rw [hbeq]
        simp only [List.isPrefixOf, List.cons_append, Bool.and_eq_false_iff]
        right; right; left
        exact beq_eq_false_iff_ne.mpr (Ne.symm ha)
      have h2 : (([13, 10, 13, 10] : List Nat).isPrefixOf
          (10 :: (headerBlock (q :: rest') ++ 13 :: 10 :: 13 :: 10 :: payload)))
          = false := by
        simp [List.isPrefixOf]
      rw [pyFindAux, h1]
      simp only [Bool.false_eq_true, if_false]
      rw [pyFindAux, h2]
      simp only [Bool.false_eq_true, if_false]
      have hih := ih hwf' (by simp) (i + ↑(headerLine p).length + 1 + 1)
      simp only [encodeFrame] at hih
      rw [hih]
      show _ = i + ↑(headerBlock (p :: q :: rest')).length
      have : headerBlock (p :: q :: rest') = headerLine p ++ 13 :: 10 :: headerBlock (q :: rest') := rfl
      rw [this]
      simp only [List.length_append, List.length_cons]
      push_cast
      ring

/-- Scanning a byte other than CR moves it onto the accumulator. -/
theorem splitCRLF_cons_ne (b : Nat) (t acc : List Nat) (hb : b ≠ 13) :
    splitCRLF (b :: t) acc = splitCRLF t (b :: acc) := by
  cases t with
  | nil => rfl
  | cons c rest => rw [splitCRLF, if_neg (by simp [hb])]

/-- Scanning a CRLF closes the current chunk. -/
theorem splitCRLF_crlf (t acc : List Nat) :
    splitCRLF (13 :: 10 :: t) acc = acc.reverse :: splitCRLF t [] := by
  rw [splitCRLF, if_pos ⟨rfl, rfl⟩]

/-- Splitting a CR-free chunk on CRLF yields a single piece. -/
theorem splitCRLF_of_no_cr (c : List Nat) (h : 13 ∉ c) : ∀ acc : List Nat,
    splitCRLF c acc = [acc.reverse ++ c] := by
  induction c with
  | nil => intro acc; simp [splitCRLF]
  | cons b c' ih =>
    intro acc
    have hb : b ≠ 13 := fun hb => h (by simp [hb])
    rw [splitCRLF_cons_ne b c' acc hb]
    rw [ih (fun hm => h (List.mem_cons_of_mem _ hm)) (b :: acc)]
    simp

/-- Splitting past a CR-free chunk followed by CRLF emits the chunk. -/
theorem splitCRLF_chunk_crlf (c : List Nat) (h : 13 ∉ c) : ∀ (t acc : List Nat),
    splitCRLF (c ++ 13 :: 10 :: t) acc = (acc.reverse ++ c) :: splitCRLF t [] := by
  induction c with
  | nil =>
    intro t acc
    rw [List.nil_append, splitCRLF_crlf]
    simp
  | cons b c' ih =>
    intro t acc
    have hb : b ≠ 13 := fun hb => h (by simp [hb])
    rw [List.cons_append, splitCRLF_cons_ne b _ acc hb]
    rw [ih (fun hm => h (List.mem_cons_of_mem _ hm)) t (b :: acc)]
    simp

/-- Splitting a well-formed header block on CRLF recovers the lines. -/
theorem splitCRLF_headerBlock (hdrs : List (List Nat × List Nat))
    (hwf : ∀ p ∈ hdrs, wfHeader p) (hne : hdrs ≠ []) :
    splitCRLF (headerBlock hdrs) [] = hdrs.map headerLine := by
  induction hdrs with
  | nil => exact absurd rfl hne
  | cons p rest ih =>
    match rest with
    | [] =>
      show splitCRLF (headerLine p) [] = [headerLine p]
      rw [splitCRLF_of_no_cr _ (cr_not_mem_headerLine p (hwf p (by simp)))]
      simp
    | q :: rest' =>
      show splitCRLF (headerLine p ++ 13 :: 10 :: headerBlock (q :: rest')) [] = _
      rw [splitCRLF_chunk_crlf _ (cr_not_mem_headerLine p (hwf p (by simp)))]
      rw [ih (fun r hr => hwf r (List.mem_cons_of_mem _ hr)) (by simp)]
      simp

/-- Splitting an encoded header line at its first colon recovers the pair. -/
theorem splitColon1_headerLine (k : List Nat) (hk : 58 ∉ k) : ∀ (v acc : List Nat),
    splitColon1 (k ++ 58 :: v) acc = [acc.reverse ++ k, v] := by
  induction k with
  | nil => intro v acc; rw [List.nil_append, splitColon1, if_pos rfl]; simp
  | cons b k' ih =>
    intro v acc
    have hb : ¬(b = 58) := fun hb => hk (by simp [hb])
    rw [List.cons_append, splitColon1, if_neg hb]
    rw [ih (fun hm => hk (List.mem_cons_of_mem _ hm)) v (b :: acc)]
    simp

/-- Parsing well-formed encoded header lines with pairwise-distinct keys
appends each pair to the accumulated dictionary in order. -/
theorem parseHeaderLines_encoded (hdrs : List (List Nat × List Nat)) :
    ∀ acc : List (List Nat × List Nat),
    (∀ p ∈ hdrs, wfHeader p) → (∀ p ∈ hdrs, p.1 ∉ acc.map Prod.fst) →
    (hdrs.map Prod.fst).Nodup →
    parseHeaderLines (hdrs.map headerLine) acc = .ok (acc ++ hdrs) := by
  induction hdrs with
  | nil => intro acc _ _ _; simp [parseHeaderLines]
  | cons p rest ih =>
    intro acc hwf hkeys hnodup
    obtain ⟨-, -, -, hcolon, -, -⟩ := hwf p (by simp)
    rw [List.map_cons, parseHeaderLines, headerLine, splitColon1_headerLine p.1 hcolon]
    simp only [List.reverse_nil, List.nil_append]
    have hset : pyDictSet acc p.1 p.2 = acc ++ [(p.1, p.2)] := by
      rw [pyDictSet, if_neg]
      simp only [List.any_eq_true, decide_eq_true_eq, not_exists, not_and]
      intro q hq hq1
      exact hkeys p (by simp) (hq1 ▸ List.mem_map_of_mem Prod.fst hq)
    rw [hset]
    have hnodup' := hnodup
    rw [List.map_cons] at hnodup'
    obtain ⟨hnotin, hnd⟩ := List.nodup_cons.mp hnodup'
    have hrest := ih (acc ++ [(p.1, p.2)])
      (fun r hr => hwf r (List.mem_cons_of_mem _ hr))
      (fun r hr => by
        simp only [List.map_append, List.mem_append, List.map_cons, List.map_nil,
          List.mem_singleton, not_or]
        refine ⟨hkeys r (List.mem_cons_of_mem _ hr), ?_⟩
        exact fun hEq => hnotin (hEq ▸ List.mem_map_of_mem Prod.fst hr))
      hnd
    rw [hrest]
    simp

/-- C1 counterexample: the frame `b"A:1"` contains no `\r\n\r\n`
delimiter, yet `get_headers_and_data` does not fail (with `MalformedFrame`
or anything else): `find` returns -1, the header block becomes `b"A:"`
(all bytes but the last) and the payload `data[3:] = b""`. -/
theorem c1_no_delimiter_counterexample :
    pyFind (strBytes "A:1") [13, 10, 13, 10] = -1 ∧
    get_headers_and_data (strBytes "A:1") = Except.ok ([(strBytes "A", [])], []) :=
  ⟨rfl, rfl⟩

/-- C1 (amended): when the delimiter is present, `get_headers_and_data`
splits the frame at its first `\r\n\r\n`, parses every prior line as
`key:value` on the first colon, and returns the bytes after the delimiter
as payload; a header line with no colon raises the builtin `ValueError`
(the codebase has no `MalformedFrame` exception); a frame without a
delimiter is not rejected (see the counterexample, restated in the third
conjunct). -/
theorem c1_text_frame_parsing :
    (∀ (hdrs : List (List Nat × List Nat)) (payload : List Nat),
      hdrs ≠ [] → (∀ p ∈ hdrs, wfHeader p) → (hdrs.map Prod.fst).Nodup →
      get_headers_and_data (encodeFrame hdrs payload) = Except.ok (hdrs, payload)) ∧
    get_headers_and_data (strBytes "no colon\r\n\r\npayload") =
      Except.error (PyError.valueError "not enough values to unpack (expected 2, got 1)") ∧
    get_headers_and_data (strBytes "A:1") = Except.ok ([(strBytes "A", [])], []) := by
  refine ⟨?_, rfl, rfl⟩
  intro hdrs payload hne hwf hnodup
  have hfind : pyFind (encodeFrame hdrs payload) [13, 10, 13, 10] =
      ((headerBlock hdrs).length : ℤ) := by
    rw [pyFind, pyFindAux_encodeFrame hdrs payload hwf hne 0]
    omega
  have hto : pySliceTo (encodeFrame hdrs payload) ((headerBlock hdrs).length : ℤ) =
      headerBlock hdrs := by
    rw [pySliceTo, if_neg (by omega)]
    rw [show (((headerBlock hdrs).length : ℤ)).toNat = (headerBlock hdrs).length by omega]
    exact List.take_left _ _
  have hfrom : pySliceFrom (encodeFrame hdrs payload)
      (((headerBlock hdrs).length : ℤ) + 4) = payload := by
    rw [pySliceFrom, if_neg (by omega)]
    rw [show (((headerBlock hdrs).length : ℤ) + 4).toNat = (headerBlock hdrs).length + 4 by
      omega]
    have hassoc : encodeFrame hdrs payload =
        (headerBlock hdrs ++ [13, 10, 13, 10]) ++ payload := by
      simp [encodeFrame]
    rw [hassoc]
    exact List.drop_left' (by simp)
  unfold get_headers_and_data
  rw [hfind]
  simp only
  rw [hto, splitCRLF_headerBlock hdrs hwf hne,
    parseHeaderLines_encoded hdrs [] hwf (by simp) hnodup]
  show Except.ok (([] ++ hdrs : List (List Nat × List Nat)), pySliceFrom
    (encodeFrame hdrs payload) (((headerBlock hdrs).length : ℤ) + 4)) = _
  rw [hfrom]
  simp

/-- Witness for C1: the spec's own round-trip frame
`b"A:1\r\nB:2\r\n\r\npayload"` parses to `{A: 1, B: 2}` and payload
`b"payload"`. -/
theorem c1_text_frame_parsing_witness :
    get_headers_and_data (strBytes "A:1\r\nB:2\r\n\r\npayload") =
      Except.ok ([(strBytes "A", strBytes "1"), (strBytes "B", strBytes "2")],
        strBytes "payload") := by
  have h := c1_text_frame_parsing.1
    [(strBytes "A", strBytes "1"), (strBytes "B", strBytes "2")] (strBytes "payload")
    (by decide) (by decide) (by decide)
  rw [show encodeFrame [(strBytes "A", strBytes "1"), (strBytes "B", strBytes "2")]
      (strBytes "payload") = strBytes "A:1\r\nB:2\r\n\r\npayload" from rfl] at h
  exact h

/-- `rndHE` specialized to a ratio of naturals, in pure `Nat` arithmetic. -/
def natRndHE (a b : Nat) : Nat :=
  if 2 * (a % b) < b then a / b
  else if b < 2 * (a % b) then a / b + 1
  else if a / b % 2 = 0 then a / b else a / b + 1

/-- The claim's reading of `format_timestamp` over integer ticks:
hours = ticks div 1e7 div 3600, minutes = (ticks div 1e7 div 60) mod 60,
seconds = the in-minute remainder in milliseconds, rendered with 3
decimal places; hours and minutes zero-padded to 2 digits and the
seconds field zero-padded to width 6 including the decimal point. -/
def claimFormatTimestamp (ticks : Nat) : String :=
  let ms := natRndHE (ticks % 600000000) 10000
  padZ 2 (toString (ticks / 36000000000)) ++ ":"
    ++ padZ 2 (toString (ticks / 600000000 % 60)) ++ ":"
    ++ padZ 6 (toString (ms / 1000) ++ "." ++ padZ 3 (toString (ms % 1000)))

/-- The integer floor of a ratio of naturals is natural division. -/
theorem int_floor_nat_div (a b : Nat) : ⌊(a : ℚ) / (b : ℚ)⌋ = ((a / b : Nat) : ℤ) := by
  rcases Nat.eq_zero_or_pos b with hb | hb
  · subst hb; simp
  · rw [← Int.natCast_floor_eq_floor (by positivity), Nat.floor_div_eq_div]

/-- `fmodQ` on a ratio of naturals folds into a natural remainder. -/
theorem fmodQ_nat_div (t d m : Nat) (hd : 0 < d) :
    fmodQ ((t : ℚ) / d) m = ((t % (d * m) : Nat) : ℚ) / d := by
  have hd' : (0 : ℚ) < d := by exact_mod_cast hd
  unfold fmodQ
  rw [show ((t : ℚ) / d) / (m : ℚ) = (t : ℚ) / ((d * m : Nat) : ℚ) by push_cast; rw [div_div],
    int_floor_nat_div]
  have hcast : ((d : ℚ) * m) * ((t / (d * m) : Nat) : ℚ) + ((t % (d * m) : Nat) : ℚ)
      = (t : ℚ) := by
    have h := congrArg (Nat.cast : Nat → ℚ) (Nat.div_add_mod t (d * m))
    push_cast at h
    linarith [h]
  simp only [Int.cast_natCast]
  rw [eq_div_iff (ne_of_gt hd'), sub_mul, div_mul_cancel₀ _ (ne_of_gt hd')]
  linarith [hcast]

/-- `rndHE` on a ratio of naturals agrees with the `Nat`-level rounder. -/
theorem rndHE_nat_div (a b : Nat) (hb : 0 < b) :
    rndHE ((a : ℚ) / b) = (natRndHE a b : ℤ) := by
  have hb' : (0 : ℚ) < b := by exact_mod_cast hb
  have hcast : ((b : ℚ)) * ((a / b : Nat) : ℚ) + ((a % b : Nat) : ℚ) = (a : ℚ) := by
    have h := congrArg (Nat.cast : Nat → ℚ) (Nat.div_add_mod a b)
    push_cast at h
    linarith [h]
  have hfrac : (a : ℚ) / b - ((((a / b : Nat) : ℤ)) : ℚ) = ((a % b : Nat) : ℚ) / b := by
    simp only [Int.cast_natCast]
    rw [eq_div_iff (ne_of_gt hb'), sub_mul, div_mul_cancel₀ _ (ne_of_gt hb')]
    linarith [hcast]
  have c1 : (((a % b : Nat) : ℚ) / b < 1 / 2) ↔ (2 * (a % b) < b) := by
    rw [div_lt_div_iff₀ hb' (by norm_num : (0:ℚ) < 2), one_mul,
      mul_comm (((a % b : Nat) : ℚ)) 2]
    exact_mod_cast Iff.rfl
  have c2 : ((1 : ℚ) / 2 < ((a % b : Nat) : ℚ) / b) ↔ (b < 2 * (a % b)) := by
    rw [div_lt_div_iff₀ (by norm_num : (0:ℚ) < 2) hb', one_mul,
      mul_comm (((a % b : Nat) : ℚ)) 2]
    exact_mod_cast Iff.rfl
  have c3 : ((((a / b : Nat) : ℤ)) % 2 = 0) ↔ ((a / b) % 2 = 0) := by omega
  simp only [rndHE, natRndHE, int_floor_nat_div, hfrac, c1, c2, c3]
  simp only [apply_ite (fun n : Nat => (n : ℤ))]
  push_cast
  rfl

/-- `toString` of a natural cast to `ℤ` renders like the natural. -/
theorem toString_int_ofNat (n : Nat) : toString ((n : Nat) : ℤ) = toString n := rfl

/-- C4: `format_timestamp` over integer ticks (100-nanosecond units)
renders "HH:MM:SS.mmm" with hours = floor(ticks/1e7/3600), minutes =
floor((ticks/1e7/60) mod 60), seconds = (ticks/1e7) mod 60 with 3 decimal
places, hours and minutes zero-padded to 2 digits and the seconds field
zero-padded to width 6; in particular `format_timestamp 0 =
"00:00:00.000"` and `format_timestamp 10000000 = "00:00:01.000"`. -/
theorem c4_format_timestamp :
    (∀ ticks : Nat, format_timestamp (ticks : ℚ) = claimFormatTimestamp ticks) ∧
    format_timestamp 0 = "00:00:00.000" ∧
    format_timestamp 10000000 = "00:00:01.000" := by
  have hgen : ∀ t : Nat, format_timestamp (t : ℚ) = claimFormatTimestamp t := ?_
  case _ =>
    refine ⟨hgen, ?_, ?_⟩
    · rw [show (0 : ℚ) = ((0 : Nat) : ℚ) by norm_num, hgen 0]
      decide
    · rw [show (10000000 : ℚ) = ((10000000 : Nat) : ℚ) by norm_num, hgen 10000000]
      decide
  intro t
  have hhour : ⌊(t : ℚ) / 10 ^ 7 / 3600⌋ = ((t / 36000000000 : Nat) : ℤ) := by
    rw [div_div, show ((10 : ℚ) ^ 7 * 3600) = ((36000000000 : Nat) : ℚ) by norm_num]
    exact int_floor_nat_div t 36000000000
  have hmin : ⌊fmodQ ((t : ℚ) / 10 ^ 7 / 60) 60⌋ = ((t / 600000000 % 60 : Nat) : ℤ) := by
    rw [div_div, show ((10 : ℚ) ^ 7 * 60) = ((600000000 : Nat) : ℚ) by norm_num,
      show (60 : ℚ) = ((60 : Nat) : ℚ) by norm_num,
      fmodQ_nat_div t 600000000 60 (by norm_num), int_floor_nat_div]
    congr 1
    exact Nat.mod_mul_right_div_self t 600000000 60
  have hsec : fmodQ ((t : ℚ) / 10 ^ 7) 60 * 1000 = ((t % 600000000 : Nat) : ℚ)
      / ((10000 : Nat) : ℚ) := by
    rw [show ((10 : ℚ) ^ 7) = ((10000000 : Nat) : ℚ) by norm_num,
      show (60 : ℚ) = ((60 : Nat) : ℚ) by norm_num,
      fmodQ_nat_div t 10000000 60 (by norm_num),
      show ((10000000 * 60 : Nat)) = (600000000 : Nat) by norm_num]
    push_cast
    ring
  have hms : (rndHE (fmodQ ((t : ℚ) / 10 ^ 7) 60 * 1000)).toNat
      = natRndHE (t % 600000000) 10000 := by
    rw [hsec, rndHE_nat_div _ _ (by norm_num), Int.toNat_natCast]
  simp only [format_timestamp, fmtFixed3, claimFormatTimestamp, hhour, hmin, hms,
    toString_int_ofNat]

/-- The default voice of `Communicate.__init__` (communicate.py line 104),
already in canonical form. -/
def defaultVoice : String := "Microsoft Server Speech Text to Speech Voice (en-US, AriaNeural)"

/-- C6: with a canonical voice, construction succeeds exactly when rate
and volume match `^[+-]\d+%$` and pitch matches `^[+-]\d+Hz$`; any
non-matching parameter makes construction fail with `ValueError`
(the constructor is pure: validation happens before any network use). -/
theorem c6_parameter_validation :
    ∀ (text rate volume pitch : String) (sb wb : Bool),
      (matchSignedPercent rate = true → matchSignedPercent volume = true →
        matchSignedHz pitch = true →
        mkCommunicate text defaultVoice rate volume pitch sb wb =
          Except.ok ⟨text, defaultVoice, rate, volume, pitch, sb, wb⟩) ∧
      (¬(matchSignedPercent rate = true ∧ matchSignedPercent volume = true ∧
          matchSignedHz pitch = true) →
        ∃ msg, mkCommunicate text defaultVoice rate volume pitch sb wb =
          Except.error (PyError.valueError msg)) := by
  intro text rate volume pitch sb wb
  have hvf : is_voice_format defaultVoice = none := by decide
  have hcv : matchCanonicalVoice defaultVoice = true := by decide
  constructor
  · intro h1 h2 h3
    simp [mkCommunicate, hvf, hcv, h1, h2, h3]
  · intro h
    cases hr : matchSignedPercent rate with
    | false =>
      exact ⟨"Invalid rate '" ++ rate ++ "'.", by simp [mkCommunicate, hvf, hcv, hr, toString_string]⟩
    | true =>
      cases hv : matchSignedPercent volume with
      | false =>
        exact ⟨"Invalid volume '" ++ volume ++ "'.",
          by simp [mkCommunicate, hvf, hcv, hr, hv, toString_string]⟩
      | true =>
        cases hp : matchSignedHz pitch with
        | false =>
          exact ⟨"Invalid pitch '" ++ pitch ++ "'.",
            by simp [mkCommunicate, hvf, hcv, hr, hv, hp, toString_string]⟩
        | true => exact absurd ⟨hr, hv, hp⟩ h

/-- Witness for C6: `("+10%", "-5%", "+2Hz")` is accepted and an invalid
rate string is rejected with `ValueError`. -/
theorem c6_parameter_validation_witness :
    mkCommunicate "hello" defaultVoice "+10%" "-5%" "+2Hz" true false =
      Except.ok ⟨"hello", defaultVoice, "+10%", "-5%", "+2Hz", true, false⟩ ∧
    ∃ msg, mkCommunicate "hello" defaultVoice "abc" "+0%" "+0Hz" false false =
      Except.error (PyError.valueError msg) :=
  ⟨(c6_parameter_validation "hello" "+10%" "-5%" "+2Hz" true false).1
      (by decide) (by decide) (by decide),
   (c6_parameter_validation "hello" "abc" "+0%" "+0Hz" false false).2 (by decide)⟩

/-- A lowercase ASCII letter is not a newline. -/
theorem ne_nl_of_lower {c : Char} (h : isAsciiLowerAZ c = true) : c ≠ '\n' := by
  intro he
  rw [he] at h
  exact absurd h (by decide)

/-- An uppercase ASCII letter is not a newline. -/
theorem ne_nl_of_upper {c : Char} (h : isAsciiUpperAZ c = true) : c ≠ '\n' := by
  intro he
  rw [he] at h
  exact absurd h (by decide)

/-- `is_voice_format` on a well-formed short-form voice string returns the
three groups. -/
theorem is_voice_format_short (lang region name : List Char)
    (hlang2 : 2 ≤ lang.length) (hlang : ∀ c ∈ lang, isAsciiLowerAZ c = true)
    (hreg2 : 2 ≤ region.length) (hreg : ∀ c ∈ region, isAsciiUpperAZ c = true)
    (hn7 : 7 ≤ name.length) (hneural : name.drop (name.length - 6) = "Neural".data)
    (hnl : '\n' ∉ name) :
    is_voice_format (String.mk (lang ++ ('-' :: (region ++ ('-' :: name))))) =
      some (lang, region, name) := by
  have hlastname : name.getLast? = some 'l' := by
    conv_lhs => rw [← List.take_append_drop (name.length - 6) name]
    rw [List.getLast?_append, hneural]
    rfl
  have hlast : (lang ++ ('-' :: (region ++ ('-' :: name)))).getLast? = some 'l' := by
    have hassoc : lang ++ ('-' :: (region ++ ('-' :: name)))
        = (lang ++ ('-' :: region) ++ ['-']) ++ name := by simp
    rw [hassoc, List.getLast?_append, hlastname]
    rfl
  have hstrip : stripOneTrailingNL (lang ++ ('-' :: (region ++ ('-' :: name))))
      = lang ++ ('-' :: (region ++ ('-' :: name))) := by
    rw [stripOneTrailingNL, if_neg]
    rw [hlast]
    simp
  have htake : (lang ++ ('-' :: (region ++ ('-' :: name)))).takeWhile isAsciiLowerAZ
      = lang := by
    rw [List.takeWhile_append_of_pos hlang, List.takeWhile_cons_of_neg (by decide)]
    simp
  have hdrop : (lang ++ ('-' :: (region ++ ('-' :: name)))).drop lang.length
      = '-' :: (region ++ ('-' :: name)) := List.drop_left lang _
  have htake2 : (region ++ ('-' :: name)).takeWhile isAsciiUpperAZ = region := by
    rw [List.takeWhile_append_of_pos hreg, List.takeWhile_cons_of_neg (by decide)]
    simp
  have hdrop2 : (region ++ ('-' :: name)).drop region.length = '-' :: name :=
    List.drop_left region _
  rw [is_voice_format, show (String.mk (lang ++ ('-' :: (region ++ ('-' :: name))))).data
    = lang ++ ('-' :: (region ++ ('-' :: name))) from rfl, hstrip, htake, hdrop]
  simp only [if_neg (by omega : ¬lang.length < 2)]
  rw [htake2, hdrop2]
  simp only [if_neg (by omega : ¬region.length < 2)]
  rw [if_pos]
  exact ⟨hn7, hneural, fun hm => hnl (List.take_subset _ _ hm)⟩

/-- The canonical-form check accepts every voice built from a two-letter-
or-longer language tag and newline-free region and name parts. -/
theorem matchCanonicalVoice_build (lang R2 N2 : List Char)
    (hlang2 : 2 ≤ lang.length) (hlangnl : '\n' ∉ lang)
    (hrnl : '\n' ∉ R2) (hnnl : '\n' ∉ N2) :
    matchCanonicalVoice (String.mk
      (canonicalVoiceLit ++ lang ++ '-' :: R2 ++ ", ".data ++ N2 ++ [')'])) = true := by
  obtain ⟨c, lang', rfl⟩ : ∃ c lang', lang = c :: lang' := by
    cases lang with
    | nil => simp at hlang2
    | cons c l => exact ⟨c, l, rfl⟩
  have hcore : canonicalVoiceLit ++ (c :: lang') ++ '-' :: R2 ++ ", ".data ++ N2 ++ [')']
      = canonicalVoiceLit ++ (((c :: lang') ++ '-' :: R2 ++ ", ".data ++ N2) ++ [')']) := by
    simp
  have hlastL : (canonicalVoiceLit ++ (c :: lang') ++ '-' :: R2 ++ ", ".data ++ N2
      ++ [')']).getLast? = some ')' := by
    rw [List.getLast?_append]
    rfl
  rw [matchCanonicalVoice, show (String.mk (canonicalVoiceLit ++ (c :: lang') ++ '-' :: R2
      ++ ", ".data ++ N2 ++ [')'])).data = canonicalVoiceLit ++ (c :: lang') ++ '-' :: R2
      ++ ", ".data ++ N2 ++ [')'] from rfl]
  rw [show stripOneTrailingNL (canonicalVoiceLit ++ (c :: lang') ++ '-' :: R2
      ++ ", ".data ++ N2 ++ [')']) = canonicalVoiceLit ++ (c :: lang') ++ '-' :: R2
      ++ ", ".data ++ N2 ++ [')'] by rw [stripOneTrailingNL, if_neg]; rw [hlastL]; simp]
  have hdropmid : ((canonicalVoiceLit ++ (c :: lang') ++ '-' :: R2 ++ ", ".data ++ N2
      ++ [')']).drop canonicalVoiceLit.length).dropLast
      = (c :: lang') ++ '-' :: R2 ++ ", ".data ++ N2 := by
    rw [hcore, List.drop_left, List.dropLast_concat]
  simp only [Bool.and_eq_true, decide_eq_true_eq]
  refine ⟨⟨⟨⟨?_, ?_⟩, ?_⟩, ?_⟩, ?_⟩
  · rw [hcore]
    exact List.take_left _ _
  · exact hlastL
  · rw [hcore]
    simp only [List.length_append, List.length_cons]
    omega
  · rw [hdropmid]
    intro hmem
    rcases List.mem_append.mp hmem with h1 | h1
    · rcases List.mem_append.mp h1 with h2 | h2
      · rcases List.mem_append.mp h2 with h3 | h3
        · exact hlangnl h3
        · rcases List.mem_cons.mp h3 with h4 | h4
          · exact absurd h4 (by decide)
          · exact hrnl h4
      · exact absurd h2 (by decide)
    · exact hnnl h1
  · rw [hdropmid]
    have hshape : (c :: lang') ++ '-' :: R2 ++ ", ".data ++ N2
        = (c :: (lang' ++ '-' :: R2 ++ [','])) ++ ' ' :: N2 := by
      simp
    rw [hshape, List.dropLast_append_cons]
    simp

/-- C5: a short-form voice `<lang>-<REGION>-<Name...Neural>` is rewritten
by the constructor into the canonical
`Microsoft Server Speech Text to Speech Voice (<lang>-<region>, <name>)`
form before use, a hyphen inside the name part moving an extra region
qualifier into the region. -/
theorem c5_voice_normalization :
    ∀ (lang region name : List Char) (text : String) (sb wb : Bool),
      2 ≤ lang.length → (∀ c ∈ lang, isAsciiLowerAZ c = true) →
      2 ≤ region.length → (∀ c ∈ region, isAsciiUpperAZ c = true) →
      7 ≤ name.length → name.drop (name.length - 6) = "Neural".data →
      '\n' ∉ name →
      mkCommunicate text (String.mk (lang ++ ('-' :: (region ++ ('-' :: name)))))
          "+0%" "+0%" "+0Hz" sb wb =
        Except.ok ⟨text,
          String.mk (canonicalVoiceLit ++ lang
            ++ '-' :: (if ('-' : Char) ∈ name then region ++ '-' :: name.takeWhile (· != '-')
                       else region)
            ++ ", ".data
            ++ (if ('-' : Char) ∈ name then (name.dropWhile (· != '-')).drop 1 else name)
            ++ [')']),
          "+0%", "+0%", "+0Hz", sb, wb⟩ := by
  intro lang region name text sb wb hlang2 hlang hreg2 hreg hn7 hneural hnl
  have hvf := is_voice_format_short lang region name hlang2 hlang hreg2 hreg hn7 hneural hnl
  have hlangnl : '\n' ∉ lang := fun hm => (ne_nl_of_lower (hlang _ hm)) rfl
  have hregnl : '\n' ∉ region := fun hm => (ne_nl_of_upper (hreg _ hm)) rfl
  have hrnl : '\n' ∉ (if ('-' : Char) ∈ name then
      region ++ '-' :: name.takeWhile (· != '-') else region) := by
    split
    · intro hm
      rcases List.mem_append.mp hm with h | h
      · exact hregnl h
      · rcases List.mem_cons.mp h with h | h
        · exact absurd h (by decide)
        · exact hnl ((List.takeWhile_sublist _).subset h)
    · exact hregnl
  have hnnl : '\n' ∉ (if ('-' : Char) ∈ name then
      (name.dropWhile (· != '-')).drop 1 else name) := by
    split
    · intro hm
      exact hnl ((List.dropWhile_sublist _).subset (List.drop_subset _ _ hm))
    · exact hnl
  have hcv := matchCanonicalVoice_build lang _ _ hlang2 hlangnl hrnl hnnl
  simp only [mkCommunicate, hvf]
  simp at hcv
  simp [hcv, show matchSignedPercent "+0%" = true by decide,
    show matchSignedHz "+0Hz" = true by decide]

/-- Witness for C5: `en-US-AriaNeural` normalizes to the canonical
`Microsoft Server Speech Text to Speech Voice (en-US, AriaNeural)`. -/
theorem c5_voice_normalization_witness :
    mkCommunicate "x" "en-US-AriaNeural" "+0%" "+0%" "+0Hz" false false =
      Except.ok ⟨"x", "Microsoft Server Speech Text to Speech Voice (en-US, AriaNeural)",
        "+0%", "+0%", "+0Hz", false, false⟩ := by
  have h := c5_voice_normalization "en".data "US".data "AriaNeural".data "x" false false
    (by decide) (by decide) (by decide) (by decide) (by decide) (by decide) (by decide)
  rw [show String.mk ("en".data ++ ('-' :: ("US".data ++ ('-' :: "AriaNeural".data))))
    = "en-US-AriaNeural" from rfl] at h
  rw [show String.mk (canonicalVoiceLit ++ "en".data
      ++ '-' :: (if ('-' : Char) ∈ "AriaNeural".data then
          "US".data ++ '-' :: "AriaNeural".data.takeWhile (· != '-') else "US".data)
      ++ ", ".data
      ++ (if ('-' : Char) ∈ "AriaNeural".data then
          ("AriaNeural".data.dropWhile (· != '-')).drop 1 else "AriaNeural".data)
      ++ [')'])
    = "Microsoft Server Speech Text to Speech Voice (en-US, AriaNeural)" from by decide] at h
  exact h

/-- Specification-side word-cue grouping: a buffer collects segments; a
group closes when it reaches `wic` segments, or early when the current
segment's trimmed text is `.`, `,` or `?`, or at the last segment. -/
def specWordGroupsAux (wic : Nat) (buf : List Seg) : List Seg → List (List Seg)
  | [] => []
  | seg :: rest =>
    if (buf ++ [seg]).length = wic ∨ seg.text.trim ∈ [".", ",", "?"] ∨ rest = [] then
      (buf ++ [seg]) :: specWordGroupsAux wic [] rest
    else specWordGroupsAux wic (buf ++ [seg]) rest

/-- Word-cue grouping started with an empty buffer. -/
def specWordGroups (wic : Nat) (segs : List Seg) : List (List Seg) :=
  specWordGroupsAux wic [] segs

/-- One rendered word cue: its time range runs from the start offset of
the group's first segment to the end offset of its last. -/
def renderWordCue (index : Nat) (g : List Seg) : String :=
  format_cue index (g.headD ⟨0, 0, ""⟩).tstart (g.getLastD ⟨0, 0, ""⟩).tstop
    (String.intercalate " " (g.map (fun seg => seg.text.trim)))

/-- Render groups with cue indices counting up from `index + 1`. -/
def renderWordCues (index : Nat) : List (List Seg) → List String
  | [] => []
  | g :: gs => renderWordCue (index + 1) g :: renderWordCues (index + 1) gs

/-- The word-cue loop agrees with the specification-side grouping, for
any buffer whose first segment fixed the pending start offset. -/
theorem wordCueLoop_eq_spec (wic : Nat) : ∀ (rest buf : List Seg) (index : Nat) (start : ℚ),
    (∀ b, buf.head? = some b → start = b.tstart) →
    wordCueLoop wic rest index start (buf.map (fun s => s.text.trim)) =
      renderWordCues index (specWordGroupsAux wic buf rest) := by
  intro rest
  induction rest with
  | nil => intro buf index start _; rfl
  | cons seg rest ih =>
    intro buf index start hs
    simp only [wordCueLoop, specWordGroupsAux]
    have hlen : (List.map (fun s => s.text.trim) buf ++ [seg.text.trim]).length
        = (buf ++ [seg]).length := by simp
    rw [hlen]
    have hmap : List.map (fun s => s.text.trim) buf ++ [seg.text.trim]
        = (buf ++ [seg]).map (fun s => s.text.trim) := by simp
    by_cases hc : (buf ++ [seg]).length = wic ∨ seg.text.trim ∈ [".", ",", "?"] ∨ rest = []
    · rw [if_pos hc, if_pos hc, renderWordCues]
      have hstart2 : (if (buf ++ [seg]).length = 1
          then seg.tstart else start) = ((buf ++ [seg]).headD ⟨0, 0, ""⟩).tstart := by
        cases buf with
        | nil => simp
        | cons b buf' =>
          rw [if_neg (by simp)]
          simp only [List.cons_append, List.headD_cons]
          exact hs b rfl
      rw [hstart2]
      have hcue : format_cue (index + 1) ((buf ++ [seg]).headD ⟨0, 0, ""⟩).tstart seg.tstop
          (String.intercalate " " (List.map (fun s => s.text.trim) buf ++ [seg.text.trim]))
          = renderWordCue (index + 1) (buf ++ [seg]) := by
        rw [renderWordCue, hmap]
        congr 1
        rw [List.getLastD_concat]
      rw [hcue]
      congr 1
      exact ih [] (index + 1) ((buf ++ [seg]).headD ⟨0, 0, ""⟩).tstart
        (fun b hb => by simp at hb)
    · rw [if_neg hc, if_neg hc, hmap]
      have hstart2 : (if (buf ++ [seg]).length = 1
          then seg.tstart else start) = (if buf.isEmpty then seg.tstart else start) := by
        cases buf with
        | nil => simp
        | cons b buf' => simp
      rw [hstart2]
      apply ih (buf ++ [seg]) index
      intro b hb
      cases buf with
      | nil =>
        simp only [List.nil_append, List.head?_cons, Option.some.injEq] at hb
        simp [← hb]
      | cons b0 buf' =>
        simp only [List.cons_append, List.head?_cons, Option.some.injEq] at hb
        simp only [List.isEmpty_cons, if_neg]
        rw [if_neg (by simp)]
        exact hb ▸ hs b0 rfl

/-- C3: `generate_word_subtitle` groups the accumulated word segments in
order into cues that close at `words_in_cue` words, early on a trimmed
`.`/`,`/`?` token, or at the last word; each cue's time range runs from
its first word's start offset to its last word's end offset and cue
indices count 1, 2, 3, ...; with `words_in_cue = 1` the four tokens
`Hello , world .` with sequential timestamps yield four single-token
cues indexed 1 to 4. -/
theorem c3_word_cues :
    (∀ (wic : Nat) (s : Subtitle),
      generate_word_subtitle s wic =
        String.join (renderWordCues 0 (specWordGroups wic s.words))) ∧
    specWordGroups 1 [⟨0, 10000000, "Hello"⟩, ⟨10000000, 20000000, ","⟩,
        ⟨20000000, 30000000, "world"⟩, ⟨30000000, 40000000, "."⟩] =
      [[⟨0, 10000000, "Hello"⟩], [⟨10000000, 20000000, ","⟩],
        [⟨20000000, 30000000, "world"⟩], [⟨30000000, 40000000, "."⟩]] ∧
    generate_word_subtitle ⟨[], [⟨0, 10000000, "Hello"⟩, ⟨10000000, 20000000, ","⟩,
        ⟨20000000, 30000000, "world"⟩, ⟨30000000, 40000000, "."⟩]⟩ 1 =
      String.join [renderWordCue 1 [⟨0, 10000000, "Hello"⟩],
        renderWordCue 2 [⟨10000000, 20000000, ","⟩],
        renderWordCue 3 [⟨20000000, 30000000, "world"⟩],
        renderWordCue 4 [⟨30000000, 40000000, "."⟩]] := by
  have hgen : ∀ (wic : Nat) (s : Subtitle),
      generate_word_subtitle s wic =
        String.join (renderWordCues 0 (specWordGroups wic s.words)) := by
    intro wic s
    unfold generate_word_subtitle specWordGroups
    congr 1
    exact wordCueLoop_eq_spec wic s.words [] 0 0 (fun b hb => by simp at hb)
  have hgroups : specWordGroups 1 [⟨0, 10000000, "Hello"⟩, ⟨10000000, 20000000, ","⟩,
      ⟨20000000, 30000000, "world"⟩, ⟨30000000, 40000000, "."⟩] =
      [[⟨0, 10000000, "Hello"⟩], [⟨10000000, 20000000, ","⟩],
        [⟨20000000, 30000000, "world"⟩], [⟨30000000, 40000000, "."⟩]] := by decide
  refine ⟨hgen, hgroups, ?_⟩
  rw [hgen 1 ⟨[], [⟨0, 10000000, "Hello"⟩, ⟨10000000, 20000000, ","⟩,
    ⟨20000000, 30000000, "world"⟩, ⟨30000000, 40000000, "."⟩]⟩]
  rw [show (Subtitle.mk [] [⟨0, 10000000, "Hello"⟩, ⟨10000000, 20000000, ","⟩,
    ⟨20000000, 30000000, "world"⟩, ⟨30000000, 40000000, "."⟩]).words
    = [⟨0, 10000000, "Hello"⟩, ⟨10000000, 20000000, ","⟩,
      ⟨20000000, 30000000, "world"⟩, ⟨30000000, 40000000, "."⟩] from rfl, hgroups]
  rfl

/-- Header parsing only ever fails with the tuple-unpacking `ValueError`. -/
theorem parseHeaderLines_error_shape : ∀ (lines : List (List Nat))
    (acc : List (List Nat × List Nat)) (e : PyError),
    parseHeaderLines lines acc = .error e → ∃ m, e = .valueError m := by
  intro lines
  induction lines with
  | nil => intro acc e h; simp [parseHeaderLines] at h
  | cons line rest ih =>
    intro acc e h
    cases hsp : splitColon1 line [] with
    | nil =>
      simp [parseHeaderLines, hsp] at h
      exact ⟨_, h.symm⟩
    | cons k t =>
      cases t with
      | nil =>
        simp [parseHeaderLines, hsp] at h
        exact ⟨_, h.symm⟩
      | cons v t2 =>
        cases t2 with
        | nil =>
          simp only [parseHeaderLines, hsp] at h
          exact ih _ e h
        | cons w t3 =>
          simp [parseHeaderLines, hsp] at h
          exact ⟨_, h.symm⟩

/-- `get_headers_and_data` only ever fails with `ValueError`. -/
theorem get_headers_and_data_error_shape (d : List Nat) (e : PyError)
    (h : get_headers_and_data d = .error e) : ∃ m, e = .valueError m := by
  replace h : (parseHeaderLines (splitCRLF (pySliceTo d (pyFind d [13, 10, 13, 10])) []) []
      >>= fun headers =>
        pure (headers, pySliceFrom d (pyFind d [13, 10, 13, 10] + 4))) = Except.error e := h
  cases hph : parseHeaderLines (splitCRLF (pySliceTo d (pyFind d [13, 10, 13, 10])) []) [] with
  | error e2 =>
    rw [hph] at h
    have h2 : (Except.error e2 : Except PyError (List (List Nat × List Nat) × List Nat))
        = Except.error e := h
    injection h2 with h3
    exact h3 ▸ parseHeaderLines_error_shape _ _ e2 hph
  | ok hs =>
    rw [hph] at h
    have h2 : (Except.ok (hs, pySliceFrom d (pyFind d [13, 10, 13, 10] + 4))
        : Except PyError (List (List Nat × List Nat) × List Nat)) = Except.error e := h
    exact Except.noConfusion h2

/-- The metadata loop only ever fails with `UnknownMetadataResponse`. -/
theorem processMetadata_error_shape : ∀ (items : List MetaItem) (e : PyError),
    (processMetadata items).2 = some e → ∃ m, e = .unknownMetadataResponse m := by
  intro items
  induction items with
  | nil => intro e h; simp [processMetadata] at h
  | cons item rest ih =>
    intro e h
    by_cases h1 : item.itemType = "SessionEnd"
    · rw [processMetadata, if_pos h1] at h
      exact ih e h
    · by_cases h2 : item.itemType = "WordBoundary" ∨ item.itemType = "SentenceBoundary"
      · rw [processMetadata, if_neg h1, if_pos h2] at h
        exact ih e h
      · rw [processMetadata, if_neg h1, if_neg h2] at h
        simp only [Option.some.injEq] at h
        exact ⟨_, h.symm⟩

/-- The metadata loop never emits an audio event. -/
theorem processMetadata_no_audio : ∀ (items : List MetaItem),
    ∀ ev ∈ (processMetadata items).1, ev.isAudio = false := by
  intro items
  induction items with
  | nil => intro ev h; simp [processMetadata] at h
  | cons item rest ih =>
    intro ev h
    by_cases h1 : item.itemType = "SessionEnd"
    · rw [processMetadata, if_pos h1] at h
      exact ih ev h
    · by_cases h2 : item.itemType = "WordBoundary" ∨ item.itemType = "SentenceBoundary"
      · rw [processMetadata, if_neg h1, if_pos h2] at h
        rcases List.mem_cons.mp h with h3 | h3
        · rw [h3]; rfl
        · exact ih ev h3
      · rw [processMetadata, if_neg h1, if_neg h2] at h
        simp at h

/-- Binary-frame parsing only ever fails with `UnexpectedResponse` or
`MissingAudioData`. -/
theorem parseBinaryFrame_error_shape (raw : List Nat) (e : PyError)
    (h : parseBinaryFrame raw = .error e) :
    (∃ m, e = .unexpectedResponse m) ∨ e = .missingAudioData := by
  unfold parseBinaryFrame at h
  by_cases h1 : raw.length < 2
  · rw [if_pos h1] at h
    injection h with h2
    exact Or.inl ⟨_, h2.symm⟩
  · rw [if_neg h1] at h
    by_cases h2 : raw.length < intFromBytesBE (raw.take 2) + 2
    · rw [if_pos h2] at h
      injection h with h3
      exact Or.inr h3.symm
    · rw [if_neg h2] at h
      exact Except.noConfusion h

/-- Whenever the receive loop is not aborted by an error other than
`NoAudioReceived`, it terminates cleanly exactly when the audio flag was
set on entry or an audio event is among its output events. -/
theorem streamLoop_termination_iff
    (jl : List Nat → Except PyError (List MetaItem))
    (hjl : ∀ p m, jl p ≠ .error (.noAudioReceived m)) :
    ∀ (fs : List Frame) (ar : Bool),
    ((streamLoop jl fs ar).2 = none ∨ (streamLoop jl fs ar).2 = some noAudioError) →
    ((streamLoop jl fs ar).2 = none ↔
      (ar = true ∨ ∃ e ∈ (streamLoop jl fs ar).1, e.isAudio = true)) := by
  intro fs
  induction fs with
  | nil =>
    intro ar _
    cases ar with
    | true => simp [streamLoop, endOfStreamCheck]
    | false => simp [streamLoop, endOfStreamCheck, noAudioError]
  | cons f rest ih =>
    intro ar hpre
    cases f with
    | text d =>
      cases hg : get_headers_and_data d with
      | error e =>
        simp only [streamLoop, hg] at hpre ⊢
        obtain ⟨m, rfl⟩ := get_headers_and_data_error_shape d e hg
        rcases hpre with h | h
        · exact absurd h (by simp)
        · simp [noAudioError] at h
      | ok hp =>
        obtain ⟨headers, payload⟩ := hp
        simp only [streamLoop, hg] at hpre ⊢
        by_cases h1 : pyDictGet headers (strBytes "Path") = some (strBytes "turn.end")
        · rw [if_pos h1] at hpre ⊢
          cases ar with
          | true => simp [endOfStreamCheck]
          | false => simp [endOfStreamCheck, noAudioError]
        · rw [if_neg h1] at hpre ⊢
          by_cases h2 : pyDictGet headers (strBytes "Path") = some (strBytes "response")
              ∨ pyDictGet headers (strBytes "Path") = some (strBytes "turn.start")
          · rw [if_pos h2] at hpre ⊢
            exact ih ar hpre
          · rw [if_neg h2] at hpre ⊢
            by_cases h3 : pyDictGet headers (strBytes "Path")
                = some (strBytes "audio.metadata")
            · rw [if_pos h3] at hpre ⊢
              cases hj : jl payload with
              | error e =>
                simp only [hj] at hpre ⊢
                rcases hpre with h | h
                · simp at h
                · simp only [Option.some.injEq] at h
                  exact absurd (h ▸ hj) (hjl payload _)
              | ok items =>
                simp only [hj] at hpre ⊢
                cases hpm : (processMetadata items).2 with
                | some e =>
                  simp only [hpm] at hpre ⊢
                  obtain ⟨m, rfl⟩ := processMetadata_error_shape items e hpm
                  rcases hpre with h | h
                  · simp at h
                  · simp [noAudioError] at h
                | none =>
                  simp only [hpm] at hpre ⊢
                  have hiff := ih ar hpre
                  rw [hiff]
                  refine or_congr Iff.rfl ⟨?_, ?_⟩
                  · rintro ⟨e, he, ha⟩
                    exact ⟨e, List.mem_append_right _ he, ha⟩
                  · rintro ⟨e, he, ha⟩
                    rcases List.mem_append.mp he with h4 | h4
                    · rw [processMetadata_no_audio items e h4] at ha
                      exact absurd ha (by simp)
                    · exact ⟨e, h4, ha⟩
            · rw [if_neg h3] at hpre ⊢
              rcases hpre with h | h
              · simp at h
              · simp [noAudioError] at h
    | binary d =>
      cases hb : parseBinaryFrame d with
      | error e =>
        simp only [streamLoop, hb] at hpre ⊢
        rcases hpre with h | h
        · simp at h
        · simp only [Option.some.injEq] at h
          rcases parseBinaryFrame_error_shape d e hb with ⟨m, rfl⟩ | rfl
          · simp [noAudioError] at h
          · simp [noAudioError] at h
      | ok a =>
        simp only [streamLoop, hb] at hpre ⊢
        have hiff := ih true hpre
        constructor
        · intro _
          right
          exact ⟨.audio a, List.mem_cons_self _ _, rfl⟩
        · intro _
          exact hiff.mpr (Or.inl rfl)
    | wsError msg =>
      simp only [streamLoop] at hpre ⊢
      rcases hpre with h | h
      · simp at h
      · simp [noAudioError] at h

/-- C7: whenever the receive loop is not aborted by another error (its
terminal state is clean or `NoAudioReceived`), it fails with
`NoAudioReceived` exactly when it emitted no audio event; a session
seeing only a `turn.start` then a `turn.end` text frame emits nothing
and fails with `NoAudioReceived`, while one that also received a binary
frame before `turn.end` terminates cleanly with its audio event. -/
theorem c7_no_audio_received :
    ∀ jloads : List Nat → Except PyError (List MetaItem),
      (∀ p m, jloads p ≠ .error (.noAudioReceived m)) →
      (∀ frames : List Frame,
        ((streamReceive jloads frames).2 = none ∨
          (streamReceive jloads frames).2 = some noAudioError) →
        ((streamReceive jloads frames).2 = some noAudioError ↔
          ∀ e ∈ (streamReceive jloads frames).1, e.isAudio = false)) ∧
      streamReceive jloads [Frame.text (strBytes "Path:turn.start\r\n\r\n"),
        Frame.text (strBytes "Path:turn.end\r\n\r\n")] = ([], some noAudioError) ∧
      streamReceive jloads [Frame.text (strBytes "Path:turn.start\r\n\r\n"),
        Frame.binary [0x00, 0x02, 0xAA, 0xBB, 0x01, 0x02, 0x03],
        Frame.text (strBytes "Path:turn.end\r\n\r\n")] =
        ([StreamEvent.audio [0x01, 0x02, 0x03]], none) := by
  intro jl hjl
  refine ⟨?_, rfl, rfl⟩
  intro frames hpre
  have hiff := streamLoop_termination_iff jl hjl frames false hpre
  simp only [Bool.false_eq_true, false_or] at hiff
  constructor
  · intro h e he
    by_contra hea
    simp only [Bool.not_eq_false] at hea
    have hnone : (streamReceive jl frames).2 = none := hiff.mpr ⟨e, he, hea⟩
    rw [h] at hnone
    exact Option.noConfusion hnone
  · intro hall
    rcases hpre with h | h
    · exfalso
      obtain ⟨e, he, hea⟩ := hiff.mp h
      rw [hall e he] at hea
      exact Bool.noConfusion hea
    · exact h

/-- Witness for C7: with a concrete (never-`NoAudioReceived`) JSON
decoder, the `turn.start`/`turn.end`-only session fails with
`NoAudioReceived`. -/
theorem c7_no_audio_received_witness :
    streamReceive (fun _ => Except.error (PyError.valueError "x"))
      [Frame.text (strBytes "Path:turn.start\r\n\r\n"),
       Frame.text (strBytes "Path:turn.end\r\n\r\n")] = ([], some noAudioError) :=
  (c7_no_audio_received (fun _ => Except.error (PyError.valueError "x"))
    (fun p m => by simp)).2.1
